import Mathlib

/-!
Verification of the WellWork offline-sync mechanism.

Shallow embedding of `src/frontend/src/offlineStorage.js`, the offline-aware
`Notes` component (`handleSave` / `handleDelete`), the `App` health check and
logout handler, and the backend note endpoints
(`POST /api/notes`, `PUT /api/notes/:id`, `DELETE /api/notes/:id`).

`localStorage` is modelled as an association list from string keys to JSON
values.  `JSON.stringify` / `JSON.parse` are modelled at the level of JSON
value trees: writing a value stores its JSON representation (a `JValue`), and
reading decodes it back, mirroring how the JavaScript code reconstructs
note/operation records from the parsed JSON.  Clocks (`Date.now()`,
`new Date().toISOString()`) and network results are explicit parameters.
-/

/-- JSON values, the serialized form held in `localStorage`. -/
inductive JValue where
  | null : JValue
  | bool (b : Bool) : JValue
  | num (n : Int) : JValue
  | str (s : String) : JValue
  | arr (elems : List JValue) : JValue
  | obj (fields : List (String × JValue)) : JValue

/-- The browser `localStorage`: string keys mapped to JSON-serialized values. -/
abbrev LocalStorage := List (String × JValue)

/-- `localStorage.getItem(k)`. -/
def getItem (k : String) : LocalStorage → Option JValue
  | [] => none
  | (k', v) :: rest => if k' = k then some v else getItem k rest

/-- `localStorage.removeItem(k)`. -/
def removeItem (k : String) (st : LocalStorage) : LocalStorage :=
  st.filter (fun p => p.1 != k)

/-- `localStorage.setItem(k, v)`: overwrite any previous binding of `k`. -/
def setItem (k : String) (v : JValue) (st : LocalStorage) : LocalStorage :=
  (k, v) :: removeItem k st

/-- `const STORAGE_PREFIX = 'wellwork_'` (offlineStorage.js). -/
def STORAGE_PREFIX : String := "wellwork_"

/-- `getUserKey(userId, key)` = `` `${STORAGE_PREFIX}${key}_${userId}` ``. -/
def getUserKey (userId key : String) : String :=
  STORAGE_PREFIX ++ key ++ "_" ++ userId

/-- Key of the pending-operation queue: `'wellwork_sync_queue'`. -/
def syncQueueKey : String := STORAGE_PREFIX ++ "sync_queue"

/-- Key of the cached session: `'wellwork_session'`. -/
def sessionKey : String := STORAGE_PREFIX ++ "session"

/-- A note record, as stored by both client cache and server
(`{ id, userId, date, content, createdAt, updatedAt }`). -/
structure Note where
  id : String
  userId : String
  date : String
  content : String
  createdAt : String
  updatedAt : String
deriving DecidableEq

/-- JSON representation of a note (field order as written by the code). -/
def encodeNote (n : Note) : JValue :=
  .obj [("id", .str n.id), ("userId", .str n.userId), ("date", .str n.date),
        ("content", .str n.content), ("createdAt", .str n.createdAt),
        ("updatedAt", .str n.updatedAt)]

/-- Reconstruction of a note record from parsed JSON. -/
def decodeNote : JValue → Option Note
  | .obj [("id", .str i), ("userId", .str u), ("date", .str d),
          ("content", .str c), ("createdAt", .str ca), ("updatedAt", .str ua)] =>
      some ⟨i, u, d, c, ca, ua⟩
  | _ => none

/-- JSON representation of a note array. -/
def encodeNotes (ns : List Note) : JValue := .arr (ns.map encodeNote)

/-- Reconstruction of a list of note records from parsed JSON elements. -/
def decodeNoteList : List JValue → Option (List Note)
  | [] => some []
  | v :: rest =>
      match decodeNote v, decodeNoteList rest with
      | some n, some ns => some (n :: ns)
      | _, _ => none

/-- Reconstruction of a note array from parsed JSON. -/
def decodeNotes : JValue → Option (List Note)
  | .arr l => decodeNoteList l
  | _ => none

/-- `notesStorage.save(userId, notes)`:
`localStorage.setItem(getUserKey(userId, 'notes'), JSON.stringify(notes))`. -/
def notesStorage_save (userId : String) (notes : List Note) (st : LocalStorage) :
    LocalStorage :=
  setItem (getUserKey userId "notes") (encodeNotes notes) st

/-- `notesStorage.load(userId)`: `data ? JSON.parse(data) : []`; a missing or
corrupted entry degrades to the empty array (the `catch` branch). -/
def notesStorage_load (userId : String) (st : LocalStorage) : List Note :=
  match getItem (getUserKey userId "notes") st with
  | some v => (decodeNotes v).getD []
  | none => []

/-- `notesStorage.clear(userId)`. -/
def notesStorage_clear (userId : String) (st : LocalStorage) : LocalStorage :=
  removeItem (getUserKey userId "notes") st

/-- Body of a queued POST operation (`noteData = { date, content }`). -/
structure PostBody where
  date : String
  content : String
deriving DecidableEq

/-- A pending operation as stored in the sync queue
(`{ method, url, headers, body, timestamp, retries }`; `headers` is the empty
object at both enqueue sites and is kept constant in the encoding). -/
structure Op where
  method : String
  url : String
  body : Option PostBody
  timestamp : Int
  retries : Int
deriving DecidableEq

instance : Inhabited Op := ⟨⟨"", "", none, 0, 0⟩⟩

/-- JSON representation of an operation body (`null` for deletes). -/
def encodeBody : Option PostBody → JValue
  | none => .null
  | some b => .obj [("date", .str b.date), ("content", .str b.content)]

/-- Reconstruction of an operation body from parsed JSON. -/
def decodeBody : JValue → Option (Option PostBody)
  | .null => some none
  | .obj [("date", .str d), ("content", .str c)] => some (some ⟨d, c⟩)
  | _ => none

/-- JSON representation of a queued operation (field order as enqueued). -/
def encodeOp (o : Op) : JValue :=
  .obj [("method", .str o.method), ("url", .str o.url), ("headers", .obj []),
        ("body", encodeBody o.body), ("timestamp", .num o.timestamp),
        ("retries", .num o.retries)]

/-- Reconstruction of a queued operation from parsed JSON. -/
def decodeOp : JValue → Option Op
  | .obj [("method", .str m), ("url", .str u), ("headers", .obj []),
          ("body", b), ("timestamp", .num t), ("retries", .num r)] =>
      match decodeBody b with
      | some body => some ⟨m, u, body, t, r⟩
      | none => none
  | _ => none

/-- JSON representation of the whole queue. -/
def encodeOps (q : List Op) : JValue := .arr (q.map encodeOp)

/-- Reconstruction of a list of queued operations from parsed JSON elements. -/
def decodeOpList : List JValue → Option (List Op)
  | [] => some []
  | v :: rest =>
      match decodeOp v, decodeOpList rest with
      | some o, some os => some (o :: os)
      | _, _ => none

/-- Reconstruction of the queue from parsed JSON. -/
def decodeOps : JValue → Option (List Op)
  | .arr l => decodeOpList l
  | _ => none

/-- `syncQueue.getAll()`: `data ? JSON.parse(data) : []`, degrading to `[]`
on a missing or corrupted entry. -/
def syncQueue_getAll (st : LocalStorage) : List Op :=
  match getItem syncQueueKey st with
  | some v => (decodeOps v).getD []
  | none => []

/-- `syncQueue.add(operation)`: push `{ ...operation, timestamp: Date.now(),
retries: 0 }` and persist.  `nowMs` stands for `Date.now()`. -/
def syncQueue_add (method url : String) (body : Option PostBody) (nowMs : Int)
    (st : LocalStorage) : LocalStorage :=
  setItem syncQueueKey
    (encodeOps (syncQueue_getAll st ++ [⟨method, url, body, nowMs, 0⟩])) st

/-- `syncQueue.remove(index)`: `queue.splice(index, 1)` and persist. -/
def syncQueue_remove (index : Nat) (st : LocalStorage) : LocalStorage :=
  setItem syncQueueKey (encodeOps ((syncQueue_getAll st).eraseIdx index)) st

/-- `syncQueue.clear()`. -/
def syncQueue_clear (st : LocalStorage) : LocalStorage :=
  removeItem syncQueueKey st

-- Round-trip lemmas for the JSON encodings.

theorem decodeNote_encodeNote (n : Note) : decodeNote (encodeNote n) = some n := rfl

theorem decodeNotes_encodeNotes (ns : List Note) :
    decodeNotes (encodeNotes ns) = some ns := by
  induction ns with
  | nil => rfl
  | cons n rest ih =>
      have ih' : decodeNoteList (rest.map encodeNote) = some rest := by
        simpa [encodeNotes, decodeNotes] using ih
      simp [encodeNotes, decodeNotes, decodeNoteList, decodeNote_encodeNote, ih']

theorem decodeOp_encodeOp (o : Op) : decodeOp (encodeOp o) = some o := by
  cases o with
  | mk m u b t r => cases b <;> rfl

theorem decodeOps_encodeOps (q : List Op) : decodeOps (encodeOps q) = some q := by
  induction q with
  | nil => rfl
  | cons o rest ih =>
      have ih' : decodeOpList (rest.map encodeOp) = some rest := by
        simpa [encodeOps, decodeOps] using ih
      simp [encodeOps, decodeOps, decodeOpList, decodeOp_encodeOp, ih']

-- Storage lookup lemmas.

theorem getItem_setItem_same (k : String) (v : JValue) (st : LocalStorage) :
    getItem k (setItem k v st) = some v := by
  simp [setItem, getItem]

theorem getItem_removeItem_ne (k k' : String) (st : LocalStorage) (h : k' ≠ k) :
    getItem k (removeItem k' st) = getItem k st := by
  induction st with
  | nil => rfl
  | cons p rest ih =>
      obtain ⟨pk, pv⟩ := p
      simp only [removeItem, List.filter_cons] at *
      by_cases hq : pk = k'
      · have h1 : (pk != k') = false := by simp [hq]
        have h2 : pk ≠ k := fun hh => h (hq ▸ hh)
        simp only [h1, Bool.false_eq_true, if_false, getItem, if_neg h2]
        exact ih
      · have h1 : (pk != k') = true := by simp [hq]
        simp only [h1, if_true, getItem]
        by_cases hk : pk = k
        · simp [hk]
        · simp only [if_neg hk]
          exact ih

theorem getItem_setItem_ne (k k' : String) (v : JValue) (st : LocalStorage)
    (h : k' ≠ k) : getItem k (setItem k' v st) = getItem k st := by
  simp only [setItem, getItem]
  rw [if_neg h]
  exact getItem_removeItem_ne k k' st h

theorem syncQueue_getAll_encoded {st : LocalStorage} {q : List Op}
    (h : getItem syncQueueKey st = some (encodeOps q)) :
    syncQueue_getAll st = q := by
  simp [syncQueue_getAll, h, decodeOps_encodeOps]

/-!
The drain pass `retryFailedRequests(apiBaseUrl, token)` (offlineStorage.js).
The replayed HTTP calls are modelled by an outcome map `f` giving, for each
snapshot index `i`, the result of `fetch` for the operation at that index.
-/

/-- Result of one replayed request inside the drain pass: a response with
`response.ok`, a response with a non-success status, or a thrown network
error (the `catch` branch). -/
inductive FetchResult where
  | ok : FetchResult
  | httpFail : FetchResult
  | netFail : FetchResult
deriving DecidableEq

/-- Whether the loop body removes the operation at the current index:
`response.ok` removes it; otherwise `operation.retries++` is applied to the
in-memory snapshot and the operation is removed when the incremented count
exceeds 5.  The increment is only ever visible through this test, because
`syncQueue.remove` and the final write re-read the persisted queue. -/
def shouldRemove (r : FetchResult) (op : Op) : Bool :=
  match r with
  | .ok => true
  | .httpFail => decide (op.retries + 1 > 5)
  | .netFail => decide (op.retries + 1 > 5)

/-- The `for (let i = queue.length - 1; i >= 0; i--)` loop over the snapshot
`snap`, threading the persisted storage and recording the `fetch` trace
(pairs of snapshot index and operation, in invocation order). -/
def drainLoop (f : Nat → FetchResult) (snap : List Op) :
    Nat → LocalStorage → LocalStorage × List (Nat × Op)
  | 0, st => (st, [])
  | i + 1, st =>
      let op := snap.getD i default
      let st1 := if shouldRemove (f i) op then syncQueue_remove i st else st
      let r := drainLoop f snap i st1
      (r.1, (i, op) :: r.2)

/-- `retryFailedRequests`: snapshot the queue, return early if it is empty,
run the loop from the highest index down, then rewrite the persisted queue
from a fresh `syncQueue.getAll()` (the "update retry counts" write). -/
def retryFailedRequests (f : Nat → FetchResult) (st : LocalStorage) :
    LocalStorage × List (Nat × Op) :=
  let queue := syncQueue_getAll st
  if queue.length = 0 then (st, [])
  else
    let r := drainLoop f queue queue.length st
    (setItem syncQueueKey (encodeOps (syncQueue_getAll r.1)) r.1, r.2)

/-- The operations a drain pass retains, with `j` the snapshot index of the
head: an operation survives unless its replay succeeded or its incremented
retry count exceeds 5. -/
def keptOps (f : Nat → FetchResult) : Nat → List Op → List Op
  | _, [] => []
  | j, op :: rest =>
      (if shouldRemove (f j) op then [] else [op]) ++ keptOps f (j + 1) rest

theorem keptOps_append (f : Nat → FetchResult) (j : Nat) (xs ys : List Op) :
    keptOps f j (xs ++ ys) = keptOps f j xs ++ keptOps f (j + xs.length) ys := by
  induction xs generalizing j with
  | nil => simp [keptOps]
  | cons x rest ih =>
      have h : j + 1 + rest.length = j + (rest.length + 1) := by omega
      simp only [List.cons_append, keptOps, List.length_cons, List.append_assoc]
      rw [show rest.append ys = rest ++ ys from rfl, ih, h]

theorem eraseIdx_append_cons (xs : List α) (y : α) (ys : List α) :
    (xs ++ y :: ys).eraseIdx xs.length = xs ++ ys := by
  induction xs with
  | nil => rfl
  | cons x rest ih => simp [List.eraseIdx, ih]

theorem enumFrom_concat (l : List α) (x : α) :
    ∀ n : Nat, List.enumFrom n (l ++ [x]) = List.enumFrom n l ++ [(n + l.length, x)] := by
  induction l with
  | nil => intro n; simp [List.enumFrom]
  | cons a rest ih =>
      intro n
      have h : n + 1 + rest.length = n + (rest.length + 1) := by omega
      simp [List.enumFrom, ih, h]

theorem enum_concat (l : List α) (x : α) :
    (l ++ [x]).enum = l.enum ++ [(l.length, x)] := by
  simpa [List.enum] using enumFrom_concat l x 0

/-- Invariant of the backwards loop: if the persisted queue holds the not-yet
visited prefix `snap.take i` followed by the already-filtered `tail`, running
the loop down from index `i` leaves the filtered prefix followed by `tail`. -/
theorem drainLoop_stored (f : Nat → FetchResult) (snap : List Op) :
    ∀ (i : Nat) (tail : List Op) (st : LocalStorage), i ≤ snap.length →
    getItem syncQueueKey st = some (encodeOps (snap.take i ++ tail)) →
    getItem syncQueueKey (drainLoop f snap i st).1 =
      some (encodeOps (keptOps f 0 (snap.take i) ++ tail)) := by
  intro i
  induction i with
  | zero => intro tail st _ h; simpa [drainLoop, keptOps] using h
  | succ i ih =>
      intro tail st hle h
      have hlt : i < snap.length := by omega
      have ha : snap[i]? = some snap[i] := List.getElem?_eq_getElem hlt
      have hgetD : snap.getD i default = snap[i] := List.getD_eq_getElem snap default hlt
      have htake : snap.take (i + 1) = snap.take i ++ [snap[i]] := by
        rw [List.take_succ, ha]; rfl
      have hlen : (snap.take i).length = i := by
        simp [List.length_take]; omega
      have h' : getItem syncQueueKey st =
          some (encodeOps (snap.take i ++ snap[i] :: tail)) := by
        rw [h, htake]
        simp only [List.append_assoc, List.singleton_append]
      have hkept : keptOps f 0 (snap.take (i + 1)) =
          keptOps f 0 (snap.take i) ++ keptOps f i [snap[i]] := by
        rw [htake, keptOps_append, Nat.zero_add, hlen]
      simp only [drainLoop, hgetD]
      by_cases hrem : shouldRemove (f i) snap[i] = true
      · rw [if_pos hrem]
        have hga : syncQueue_getAll st = snap.take i ++ snap[i] :: tail :=
          syncQueue_getAll_encoded h'
        have herase : (syncQueue_getAll st).eraseIdx i = snap.take i ++ tail := by
          have he := eraseIdx_append_cons (snap.take i) snap[i] tail
          rw [hlen] at he
          rw [hga]; exact he
        have h1 : getItem syncQueueKey (syncQueue_remove i st) =
            some (encodeOps (snap.take i ++ tail)) := by
          rw [syncQueue_remove, herase]; exact getItem_setItem_same _ _ _
        rw [ih tail (syncQueue_remove i st) (by omega) h1, hkept]
        simp [keptOps, hrem]
      · rw [if_neg hrem]
        rw [ih (snap[i] :: tail) st (by omega) h', hkept]
        simp [keptOps, hrem]

/-- The loop invokes the executor once per snapshot entry, newest first;
the trace does not depend on the outcomes or the storage. -/
theorem drainLoop_trace (f : Nat → FetchResult) (snap : List Op) :
    ∀ (i : Nat) (st : LocalStorage), i ≤ snap.length →
    (drainLoop f snap i st).2 = ((snap.take i).enum).reverse := by
  intro i
  induction i with
  | zero => intro st _; simp [drainLoop]
  | succ i ih =>
      intro st hle
      have hlt : i < snap.length := by omega
      have ha : snap[i]? = some snap[i] := List.getElem?_eq_getElem hlt
      have hgetD : snap.getD i default = snap[i] := List.getD_eq_getElem snap default hlt
      have htake : snap.take (i + 1) = snap.take i ++ [snap[i]] := by
        rw [List.take_succ, ha]; rfl
      have hlen : (snap.take i).length = i := by
        simp [List.length_take]; omega
      simp only [drainLoop, hgetD]
      rw [htake, enum_concat, hlen]
      by_cases hrem : shouldRemove (f i) snap[i] = true
      · rw [if_pos hrem]
        simp [ih _ (by omega : i ≤ snap.length)]
      · rw [if_neg hrem]
        simp [ih _ (by omega : i ≤ snap.length)]

/-- What a drain pass persists: exactly the operations not removed by their
outcome (successful replay, or incremented retry count above 5).  The final
"update retry counts" write re-reads the persisted queue, so surviving
operations keep their persisted retry counts. -/
theorem retryFailedRequests_stored (f : Nat → FetchResult) (st : LocalStorage)
    (q : List Op) (h : getItem syncQueueKey st = some (encodeOps q)) :
    getItem syncQueueKey (retryFailedRequests f st).1 =
      some (encodeOps (keptOps f 0 q)) := by
  have hq : syncQueue_getAll st = q := syncQueue_getAll_encoded h
  by_cases hlen : q.length = 0
  · obtain rfl : q = [] := List.length_eq_zero.mp hlen
    simpa [retryFailedRequests, hq, keptOps] using h
  · have h0 : getItem syncQueueKey st =
        some (encodeOps (q.take q.length ++ [])) := by
      simpa [List.take_length] using h
    have hst := drainLoop_stored f q q.length [] st (le_refl _) h0
    rw [List.take_length, List.append_nil] at hst
    have hga : syncQueue_getAll (drainLoop f q q.length st).1 = keptOps f 0 q :=
      syncQueue_getAll_encoded hst
    simp only [retryFailedRequests, hq]
    rw [if_neg hlen]
    rw [hga]
    exact getItem_setItem_same _ _ _

/-- The trace of a drain pass: every snapshot operation is replayed exactly
once, in reverse insertion order (newest first). -/
theorem retryFailedRequests_trace (f : Nat → FetchResult) (st : LocalStorage)
    (q : List Op) (h : getItem syncQueueKey st = some (encodeOps q)) :
    (retryFailedRequests f st).2 = q.enum.reverse := by
  have hq : syncQueue_getAll st = q := syncQueue_getAll_encoded h
  by_cases hlen : q.length = 0
  · obtain rfl : q = [] := List.length_eq_zero.mp hlen
    simp [retryFailedRequests, hq]
  · have htr := drainLoop_trace f q q.length st (le_refl _)
    rw [List.take_length] at htr
    simp only [retryFailedRequests, hq]
    rw [if_neg hlen]
    exact htr

theorem mem_keptOps (f : Nat → FetchResult) :
    ∀ (j0 : Nat) (q : List Op) (j : Nat) (h : j < q.length),
    shouldRemove (f (j0 + j)) (q.get ⟨j, h⟩) = false →
    q.get ⟨j, h⟩ ∈ keptOps f j0 q := by
  intro j0 q
  induction q generalizing j0 with
  | nil => intro j h; simp at h
  | cons a rest ih =>
      intro j h hk
      cases j with
      | zero =>
          simp only [List.get] at hk ⊢
          simp only [Nat.add_zero] at hk
          simp [keptOps, hk]
      | succ j' =>
          have h' : j' < rest.length := by simpa using Nat.lt_of_succ_lt_succ h
          have hk' : shouldRemove (f (j0 + 1 + j')) (rest.get ⟨j', h'⟩) = false := by
            have : j0 + 1 + j' = j0 + (j' + 1) := by omega
            rw [this]
            simpa [List.get] using hk
          have := ih (j0 + 1) j' h' hk'
          simp only [List.get, keptOps]
          exact List.mem_append_right _ this

/-- A concrete queued save operation, used as test data. -/
def sampleSaveOp : Op := ⟨"POST", "/api/notes", some ⟨"2024-06-01", "buy milk"⟩, 1000, 0⟩

/-- A concrete queued delete operation, used as test data. -/
def sampleDeleteOp : Op := ⟨"DELETE", "/api/notes/abc123", none, 1000, 0⟩

/-- Claim C1: in a drain pass (`retryFailedRequests`), a queued operation is
removed from the persisted queue only if its replay received an ok response
or its retry count has exceeded 5; under no other condition is an operation
lost — stated as retention: an operation whose replay was not ok and whose
incremented retry count is at most 5 is still in the persisted queue after
the pass. -/
theorem c1_drain_never_loses_op (f : Nat → FetchResult) (st : LocalStorage)
    (q : List Op) (h : getItem syncQueueKey st = some (encodeOps q))
    (j : Nat) (hj : j < q.length) (hnok : f j ≠ FetchResult.ok)
    (hret : (q.get ⟨j, hj⟩).retries + 1 ≤ 5) :
    q.get ⟨j, hj⟩ ∈ syncQueue_getAll (retryFailedRequests f st).1 := by
  have hrem : shouldRemove (f j) (q.get ⟨j, hj⟩) = false := by
    cases hf : f j with
    | ok => exact absurd hf hnok
    | httpFail =>
        simp only [shouldRemove, decide_eq_false_iff_not, not_lt]
        omega
    | netFail =>
        simp only [shouldRemove, decide_eq_false_iff_not, not_lt]
        omega
  have hmem := mem_keptOps f 0 q j hj (by simpa using hrem)
  rw [syncQueue_getAll_encoded (retryFailedRequests_stored f st q h)]
  exact hmem

theorem c1_drain_never_loses_op_witness :
    (fun _ : Nat => FetchResult.netFail) 0 ≠ FetchResult.ok ∧
    sampleSaveOp.retries + 1 ≤ 5 ∧
    sampleSaveOp ∈ syncQueue_getAll
      (retryFailedRequests (fun _ => FetchResult.netFail)
        (setItem syncQueueKey (encodeOps [sampleSaveOp]) [])).1 :=
  ⟨by decide, by decide,
    c1_drain_never_loses_op (fun _ => FetchResult.netFail)
      (setItem syncQueueKey (encodeOps [sampleSaveOp]) []) [sampleSaveOp]
      (getItem_setItem_same _ _ _) 0 (by decide) (by decide) (by decide)⟩

/-- Claim C2 counterexample: with two queued operations and an executor that
succeeds on both, the fetch trace of the drain pass starts with the
later-enqueued operation (snapshot index 1), not the earlier one: the loop
runs `for (let i = queue.length - 1; i >= 0; i--)`, newest first. -/
theorem c2_counterexample :
    (retryFailedRequests (fun _ => FetchResult.ok)
        (setItem syncQueueKey (encodeOps [sampleSaveOp, sampleDeleteOp]) [])).2
      = [(1, sampleDeleteOp), (0, sampleSaveOp)] ∧
    sampleSaveOp ≠ sampleDeleteOp := by
  constructor
  · rfl
  · decide

/-- Claim C2 (amended): a drain pass replays every snapshot operation exactly
once, in reverse insertion order — newest first, i.e. the trace is the
reversed enumeration of the queue. -/
theorem c2_drain_order (f : Nat → FetchResult) (st : LocalStorage) (q : List Op)
    (h : getItem syncQueueKey st = some (encodeOps q)) :
    (retryFailedRequests f st).2 = q.enum.reverse :=
  retryFailedRequests_trace f st q h

theorem c2_drain_order_witness :
    (retryFailedRequests (fun _ => FetchResult.httpFail)
        (setItem syncQueueKey (encodeOps [sampleSaveOp, sampleDeleteOp]) [])).2
      = ([sampleSaveOp, sampleDeleteOp].enum).reverse :=
  c2_drain_order (fun _ => FetchResult.httpFail) _ [sampleSaveOp, sampleDeleteOp]
    (getItem_setItem_same _ _ _)

/-- One drain pass as a storage transformer (the executor fails with a
network error on every replay). -/
def drainAllFail (st : LocalStorage) : LocalStorage :=
  (retryFailedRequests (fun _ => FetchResult.netFail) st).1

/-- Claim C3 (code bug): the retry-count increments `operation.retries++` are
applied to the in-memory snapshot only; `syncQueue.remove` and the final
"update retry counts" write both re-read the persisted queue, so a failing
operation's persisted retry count stays 0 forever.  After any number of
all-failing drain passes the queue still holds the original operation with
retries = 0, and the next pass replays it again — it is never discarded. -/
theorem c3_retry_count_never_persisted : ∀ n : Nat,
    getItem syncQueueKey
      (drainAllFail^[n] (setItem syncQueueKey (encodeOps [sampleDeleteOp]) []))
      = some (encodeOps [sampleDeleteOp]) ∧
    (retryFailedRequests (fun _ => FetchResult.netFail)
      (drainAllFail^[n] (setItem syncQueueKey (encodeOps [sampleDeleteOp]) []))).2
      = [(0, sampleDeleteOp)] := by
  intro n
  induction n with
  | zero =>
      refine ⟨getItem_setItem_same _ _ _, ?_⟩
      exact retryFailedRequests_trace _ _ [sampleDeleteOp] (getItem_setItem_same _ _ _)
  | succ n ih =>
      have hkept : keptOps (fun _ => FetchResult.netFail) 0 [sampleDeleteOp]
          = [sampleDeleteOp] := by decide
      have h1 : getItem syncQueueKey
          (drainAllFail^[n + 1] (setItem syncQueueKey (encodeOps [sampleDeleteOp]) []))
          = some (encodeOps [sampleDeleteOp]) := by
        rw [Function.iterate_succ_apply']
        have := retryFailedRequests_stored (fun _ => FetchResult.netFail) _ _ ih.1
        rw [hkept] at this
        exact this
      exact ⟨h1, retryFailedRequests_trace _ _ [sampleDeleteOp] h1⟩

theorem getItem_removeItem_same (k : String) (st : LocalStorage) :
    getItem k (removeItem k st) = none := by
  induction st with
  | nil => rfl
  | cons p rest ih =>
      obtain ⟨pk, pv⟩ := p
      simp only [removeItem, List.filter_cons] at *
      by_cases hq : pk = k
      · simp only [hq, bne_self_eq_false, Bool.false_eq_true, if_false]
        exact ih
      · have h1 : (pk != k) = true := by simp [hq]
        simp only [h1, if_true, getItem, if_neg hq]
        exact ih

theorem notesKey_ne_syncQueueKey (u : String) :
    getUserKey u "notes" ≠ syncQueueKey := by
  intro h
  have h0 : ("wellwork_notes_" ++ u) = "wellwork_sync_queue" := h
  have hd := congrArg String.data h0
  rw [String.data_append] at hd
  have h9 := congrArg (fun l => l[9]?) hd
  simp only [] at h9
  rw [List.getElem?_append_left (by decide)] at h9
  exact absurd h9 (by decide)

theorem notesKey_ne_sessionKey (u : String) :
    getUserKey u "notes" ≠ sessionKey := by
  intro h
  have h0 : ("wellwork_notes_" ++ u) = "wellwork_session" := h
  have hd := congrArg String.data h0
  rw [String.data_append] at hd
  have h9 := congrArg (fun l => l[9]?) hd
  simp only [] at h9
  rw [List.getElem?_append_left (by decide)] at h9
  exact absurd h9 (by decide)

theorem sessionKey_ne_syncQueueKey : sessionKey ≠ syncQueueKey := by decide

/-- Claim C7: cache round-trip — for every user id and note array,
`notesStorage.save(u, N)` followed by `notesStorage.load(u)` returns `N`. -/
theorem c7_cache_round_trip (u : String) (ns : List Note) (st : LocalStorage) :
    notesStorage_load u (notesStorage_save u ns st) = ns := by
  simp [notesStorage_load, notesStorage_save, getItem_setItem_same,
    decodeNotes_encodeNotes]

/-- `sessionStorage.clear()` (offlineStorage.js). -/
def sessionStorage_clear (st : LocalStorage) : LocalStorage :=
  removeItem sessionKey st

/-- The `Log out` button handler (App.jsx): `sessionStorage.clear()` then
`notesStorage.clear(session?.user?.id)`; React state resets are not part of
the persisted storage.  It does not touch the sync queue. -/
def logoutHandler (userId : String) (st : LocalStorage) : LocalStorage :=
  notesStorage_clear userId (sessionStorage_clear st)

/-- Claim C9 counterexample: logging out with one queued operation leaves the
persisted sync queue non-empty — the logout handler never calls
`syncQueue.clear()`. -/
theorem c9_counterexample :
    ¬ (syncQueue_getAll
        (logoutHandler "u1" (setItem syncQueueKey (encodeOps [sampleSaveOp]) []))
      = []) := by decide

/-- Claim C9 (amended): on logout the session entry and the user's note cache
are removed, but the persisted pending-operation queue is left exactly as it
was; `syncQueue.clear()` itself (which the logout handler does not call)
would empty it. -/
theorem c9_logout_behavior (u : String) (st : LocalStorage) :
    getItem syncQueueKey (logoutHandler u st) = getItem syncQueueKey st ∧
    getItem sessionKey (logoutHandler u st) = none ∧
    getItem (getUserKey u "notes") (logoutHandler u st) = none ∧
    syncQueue_getAll (syncQueue_clear st) = [] := by
  refine ⟨?_, ?_, ?_, ?_⟩
  · rw [logoutHandler, notesStorage_clear, sessionStorage_clear,
      getItem_removeItem_ne _ _ _ (notesKey_ne_syncQueueKey u),
      getItem_removeItem_ne _ _ _ sessionKey_ne_syncQueueKey]
  · rw [logoutHandler, notesStorage_clear, sessionStorage_clear,
      getItem_removeItem_ne _ _ _ (notesKey_ne_sessionKey u),
      getItem_removeItem_same]
  · rw [logoutHandler, notesStorage_clear, getItem_removeItem_same]
  · rw [syncQueue_getAll, syncQueue_clear, getItem_removeItem_same]

/-!
The health-check effect (App.jsx `checkHealth`): `setServerStatus('checking')`
runs before the `fetch`; an ok response sets online and, if the previous
cycle had marked offline and a session token exists, replays the queue
(`retryFailedRequests`) and refreshes the note cache from the server; a
non-ok response or network error sets offline; an `AbortError` (cancelled
check) is ignored by the `catch`.
-/

/-- `serverStatus` React state: `'checking' | 'online' | 'offline'`. -/
inductive ServerStatus where
  | checking : ServerStatus
  | online : ServerStatus
  | offline : ServerStatus
deriving DecidableEq

/-- The component state that `checkHealth` reads and writes:
`serverStatus`, `isOfflineMode`, and the closure-local `wasOffline` flag. -/
structure HealthState where
  serverStatus : ServerStatus
  isOfflineMode : Bool
  wasOffline : Bool
deriving DecidableEq

/-- Result of the `/health` fetch: ok response, non-ok response (the thrown
`Health check failed` error), network error, or an abort of the in-flight
request (component teardown), which surfaces as an `AbortError`. -/
inductive HealthOutcome where
  | ok : HealthOutcome
  | httpFail : HealthOutcome
  | netFail : HealthOutcome
  | aborted : HealthOutcome
deriving DecidableEq

/-- One run of `checkHealth`.  `f` gives the outcomes of replays inside
`retryFailedRequests`; `reload` is the result of the follow-up
`GET /api/notes` (`none` for a failed or non-ok fetch); `sessionToken` and
`userId` come from the current session. -/
def checkHealth (outcome : HealthOutcome) (f : Nat → FetchResult)
    (reload : Option (List Note)) (sessionToken : Option String)
    (userId : String) (s : HealthState) (st : LocalStorage) :
    HealthState × LocalStorage :=
  match outcome with
  | .ok =>
      let st1 :=
        if s.wasOffline ∧ sessionToken.isSome then
          let st2 := (retryFailedRequests f st).1
          match reload with
          | some serverNotes => notesStorage_save userId serverNotes st2
          | none => st2
        else st
      (⟨.online, false, false⟩, st1)
  | .httpFail => (⟨.offline, true, true⟩, st)
  | .netFail => (⟨.offline, true, true⟩, st)
  | .aborted => ({ s with serverStatus := .checking }, st)

/-- Claim C8 counterexample: a check that starts while the state is `online`
and is then cancelled mid-flight leaves `serverStatus` = `checking` (set at
the start of the check), not the pre-check value `online`. -/
theorem c8_counterexample :
    ¬ ((checkHealth .aborted (fun _ => FetchResult.ok) none none "u1"
          ⟨.online, false, false⟩ []).1.serverStatus = ServerStatus.online) := by
  decide

/-- Claim C8 (amended): a health check cancelled mid-flight records no
offline transition — `isOfflineMode`, `wasOffline` and the storage are left
exactly as they were, and `serverStatus` is left at `checking` (assigned
when the check began), never `offline`. -/
theorem c8_cancelled_check (f : Nat → FetchResult) (reload : Option (List Note))
    (sessionToken : Option String) (userId : String) (s : HealthState)
    (st : LocalStorage) :
    checkHealth .aborted f reload sessionToken userId s st
      = ({ s with serverStatus := .checking }, st) := rfl

instance : Inhabited Note := ⟨⟨"", "", "", "", "", ""⟩⟩

theorem notesStorage_load_save (u : String) (ns : List Note) (st : LocalStorage) :
    notesStorage_load u (notesStorage_save u ns st) = ns := by
  simp [notesStorage_load, notesStorage_save, getItem_setItem_same,
    decodeNotes_encodeNotes]

theorem syncQueue_getAll_add (m url : String) (body : Option PostBody)
    (nowMs : Int) (st : LocalStorage) :
    syncQueue_getAll (syncQueue_add m url body nowMs st)
      = syncQueue_getAll st ++ [⟨m, url, body, nowMs, 0⟩] :=
  syncQueue_getAll_encoded (getItem_setItem_same _ _ _)

theorem syncQueue_getAll_notesSave (u : String) (ns : List Note)
    (st : LocalStorage) :
    syncQueue_getAll (notesStorage_save u ns st) = syncQueue_getAll st := by
  rw [syncQueue_getAll, notesStorage_save,
    getItem_setItem_ne _ _ _ _ (notesKey_ne_syncQueueKey u), syncQueue_getAll]

/-!
The offline-aware `Notes` component (the `MAIN APP COMPONENT` source file):
`handleSave` and `handleDelete`.  The server round-trip is an explicit
outcome; `nowMs` stands for `Date.now()` and `nowIso` for
`new Date().toISOString()`.  On an ok response both handlers return before
touching `localStorage` (the parent callback only sets React state); on a
non-ok response or a thrown network error control continues into the
"Offline mode" block.
-/

/-- Result of the `POST /api/notes` fetch in `handleSave`. -/
inductive SaveOutcome where
  | ok (updatedNotes : List Note) : SaveOutcome
  | httpErr : SaveOutcome
  | netErr : SaveOutcome

/-- `handleSave` (Notes component): guard on `selectedDate`; when not in
offline mode try the server and return on `response.ok`; otherwise fall
through to the local mutation: upsert the cached note by date (assigning a
`temp_` id when there is no current id), persist the cache, and enqueue the
POST operation.  Returns the storage and the new `currentNoteId`. -/
def handleSave (sd c : String) (cid : Option String) (u : String)
    (offline : Bool) (outcome : SaveOutcome) (nowMs : Int) (nowIso : String)
    (st : LocalStorage) : LocalStorage × Option String :=
  if sd = "" then (st, cid)
  else
    let noteData : PostBody := ⟨sd, c.trim⟩
    let serverDone : Option (List Note) :=
      if offline then none
      else match outcome with
        | .ok ns => some ns
        | _ => none
    match serverDone with
    | some updatedNotes =>
        let newCid := match updatedNotes.find? (fun n => n.date == sd) with
          | some savedNote => some savedNote.id
          | none => cid
        (st, newCid)
    | none =>
        let cachedNotes := notesStorage_load u st
        let existingIndex := cachedNotes.findIdx? (fun n => n.date == sd)
        let noteToSave : Note :=
          { id := match cid with
              | some i => if i = "" then "temp_" ++ toString nowMs else i
              | none => "temp_" ++ toString nowMs,
            userId := u, date := sd, content := c.trim,
            createdAt := match existingIndex with
              | some i => (cachedNotes.getD i default).createdAt
              | none => nowIso,
            updatedAt := nowIso }
        let newCache := match existingIndex with
          | some i => cachedNotes.set i noteToSave
          | none => cachedNotes ++ [noteToSave]
        let st1 := notesStorage_save u newCache st
        let st2 := syncQueue_add "POST" "/api/notes" (some noteData) nowMs st1
        (st2, some noteToSave.id)

/-- `String.prototype.startsWith(prefixStr)`: prefix test on the character
data (executable form of `String.startsWith`). -/
def strStartsWith (s pre : String) : Bool := pre.data.isPrefixOf s.data

/-- Result of the `DELETE /api/notes/:id` fetch in `handleDelete`. -/
inductive DeleteOutcome where
  | ok (updatedNotes : List Note) : DeleteOutcome
  | httpErr : DeleteOutcome
  | netErr : DeleteOutcome

/-- `handleDelete` (Notes component): guards on `selectedDate`,
`currentNoteId` and the confirm dialog; the server is attempted only when
not offline and the id is not temporary; on fall-through the note is removed
from the cached copy and a DELETE operation is enqueued only for non-`temp_`
ids. -/
def handleDelete (sd : String) (cid : Option String) (u : String)
    (offline : Bool) (confirmed : Bool) (outcome : DeleteOutcome)
    (nowMs : Int) (st : LocalStorage) : LocalStorage × Option String :=
  match cid with
  | none => (st, none)
  | some id =>
      if sd = "" ∨ id = "" then (st, some id)
      else if ¬ confirmed then (st, some id)
      else
        let serverDone : Option (List Note) :=
          if offline ∨ strStartsWith id "temp_" then none
          else match outcome with
            | .ok ns => some ns
            | _ => none
        match serverDone with
        | some _ => (st, none)
        | none =>
            let cached := notesStorage_load u st
            let filtered := cached.filter (fun n => n.id != id)
            let st1 := notesStorage_save u filtered st
            let st2 :=
              if strStartsWith id "temp_" then st1
              else syncQueue_add "DELETE" ("/api/notes/" ++ id) none nowMs st1
            (st2, none)

set_option maxHeartbeats 1600000 in
/-- Claim C4 counterexample: with the client online and the server rejecting
the save with a non-success status (4xx), `handleSave` does not leave the
local state alone — control falls through to the "Offline mode" block, so
the per-user cache is mutated and a POST operation is enqueued. -/
theorem c4_counterexample :
    ¬ (notesStorage_load "u1"
          (handleSave "2024-06-01" "buy milk" none "u1" false .httpErr 1000
            "2024-06-01T00:00:00.000Z" []).1
        = notesStorage_load "u1" [] ∧
       syncQueue_getAll
          (handleSave "2024-06-01" "buy milk" none "u1" false .httpErr 1000
            "2024-06-01T00:00:00.000Z" []).1
        = syncQueue_getAll []) := by
  decide

set_option maxHeartbeats 1600000 in
/-- Claim C4 (amended): a server-rejected request (non-ok status) is handled
exactly like a transport failure: `handleSave` and `handleDelete` fall
through to the local-mutation path, so the handler's result on a 4xx equals
its result on a network error, and `handleSave` appends the POST operation
to the pending queue. -/
theorem c4_rejected_like_transport_failure
    (sd c : String) (cid : Option String) (u : String) (nowMs : Int)
    (nowIso : String) (st : LocalStorage)
    (sd2 id2 u2 : String) (nowMs2 : Int) (st2 : LocalStorage)
    (hsd : sd ≠ "") :
    handleSave sd c cid u false .httpErr nowMs nowIso st
      = handleSave sd c cid u false .netErr nowMs nowIso st ∧
    syncQueue_getAll (handleSave sd c cid u false .httpErr nowMs nowIso st).1
      = syncQueue_getAll st ++ [⟨"POST", "/api/notes", some ⟨sd, c.trim⟩, nowMs, 0⟩] ∧
    handleDelete sd2 (some id2) u2 false true .httpErr nowMs2 st2
      = handleDelete sd2 (some id2) u2 false true .netErr nowMs2 st2 := by
  refine ⟨?_, ?_, ?_⟩
  · simp [handleSave, hsd]
  · simp [handleSave, hsd, syncQueue_getAll_add, syncQueue_getAll_notesSave]
  · by_cases hg : sd2 = "" ∨ id2 = ""
    · simp [handleDelete, hg]
    · by_cases hs : strStartsWith id2 "temp_" <;>
        simp [handleDelete, hg, hs]

theorem c4_rejected_like_transport_failure_witness :
    ("2024-06-01" : String) ≠ "" ∧
    (handleSave "2024-06-01" "x" none "u1" false .httpErr 5 "t" []
        = handleSave "2024-06-01" "x" none "u1" false .netErr 5 "t" [] ∧
     syncQueue_getAll (handleSave "2024-06-01" "x" none "u1" false .httpErr 5 "t" []).1
        = syncQueue_getAll ([] : LocalStorage)
            ++ [⟨"POST", "/api/notes", some ⟨"2024-06-01", ("x" : String).trim⟩, 5, 0⟩] ∧
     handleDelete "2024-06-01" (some "id7") "u1" false true .httpErr 5 []
        = handleDelete "2024-06-01" (some "id7") "u1" false true .netErr 5 []) :=
  ⟨by decide,
   c4_rejected_like_transport_failure "2024-06-01" "x" none "u1" 5 "t" []
     "2024-06-01" "id7" "u1" 5 [] (by decide)⟩

/-- Claim C10: deleting a note whose id has the temporary prefix `temp_`
(never confirmed by the server) filters it out of the per-user cache but
leaves the persisted pending-operation queue untouched — the enqueue is
guarded by `!currentNoteId.startsWith('temp_')`. -/
theorem c10_temp_delete_keeps_queue (sd id u : String) (offline : Bool)
    (outcome : DeleteOutcome) (nowMs : Int) (st : LocalStorage)
    (hsd : sd ≠ "") (hid : id ≠ "") (htemp : strStartsWith id "temp_" = true) :
    getItem syncQueueKey (handleDelete sd (some id) u offline true outcome nowMs st).1
      = getItem syncQueueKey st ∧
    notesStorage_load u (handleDelete sd (some id) u offline true outcome nowMs st).1
      = (notesStorage_load u st).filter (fun n => n.id != id) := by
  have hg : ¬ (sd = "" ∨ id = "") := by simp [hsd, hid]
  constructor
  · simp only [handleDelete]
    rw [if_neg hg]
    simp [htemp, notesStorage_save,
      getItem_setItem_ne syncQueueKey (getUserKey u "notes") _ _
        (notesKey_ne_syncQueueKey u)]
  · simp only [handleDelete]
    rw [if_neg hg]
    simp [htemp, notesStorage_load_save]

theorem c10_temp_delete_keeps_queue_witness :
    ("2024-06-01" : String) ≠ "" ∧ ("temp_123" : String) ≠ "" ∧
    strStartsWith "temp_123" "temp_" = true ∧
    (getItem syncQueueKey
        (handleDelete "2024-06-01" (some "temp_123") "u1" false true .netErr 7 []).1
      = getItem syncQueueKey [] ∧
     notesStorage_load "u1"
        (handleDelete "2024-06-01" (some "temp_123") "u1" false true .netErr 7 []).1
      = (notesStorage_load "u1" []).filter (fun n => n.id != "temp_123")) :=
  ⟨by decide, by decide, by decide,
   c10_temp_delete_keeps_queue "2024-06-01" "temp_123" "u1" false .netErr 7 []
     (by decide) (by decide) (by decide)⟩

/-!
Backend note endpoints (server source file).  `req.user.sub` is the
authenticated user id; `randomUUID()` and `new Date().toISOString()` are
explicit parameters.  The JavaScript falsiness guards (`!date || !content ||
!content.trim()`) are rendered literally for string-typed request fields.
Each endpoint returns the HTTP status and the full stored note list written
by `writeNotes` (the per-user response filter does not affect the store).
-/

/-- Update the first matching note in place (models `notes.find(...)`
followed by mutation of the found object). -/
def updateFirst (p : Note → Bool) (g : Note → Note) : List Note → List Note
  | [] => []
  | n :: rest => if p n then g n :: rest else n :: updateFirst p g rest

/-- `POST /api/notes` (upsert by (userId, date)): validate, then update the
existing note's content/updatedAt, or append a freshly-identified note. -/
def postNote (u d c newId now : String) (notes : List Note) :
    Nat × List Note :=
  if d = "" ∨ c = "" ∨ c.trim = "" then (400, notes)
  else if (notes.find? (fun n => n.userId == u && n.date == d)).isSome then
    (201, updateFirst (fun n => n.userId == u && n.date == d)
      (fun n => { n with content := c.trim, updatedAt := now }) notes)
  else
    (201, notes ++ [⟨newId, u, d, c.trim, now, now⟩])

/-- `PUT /api/notes/:id`: validate content, 404 when no note of this user
has the id, else update content/updatedAt of the first match. -/
def putNote (u id c now : String) (notes : List Note) : Nat × List Note :=
  if c = "" ∨ c.trim = "" then (400, notes)
  else if (notes.find? (fun n => n.id == id && n.userId == u)).isSome then
    (200, updateFirst (fun n => n.id == id && n.userId == u)
      (fun n => { n with content := c.trim, updatedAt := now }) notes)
  else (404, notes)

/-- `DELETE /api/notes/:id`: drop the user's note with this id; 404 when
nothing was removed. -/
def deleteNote (u id : String) (notes : List Note) : Nat × List Note :=
  let filteredNotes := notes.filter (fun n => !(n.id == id && n.userId == u))
  if notes.length = filteredNotes.length then (404, notes)
  else (200, filteredNotes)

/-- Server invariant: at most one note per (userId, date) pair. -/
def noDupUserDate (notes : List Note) : Prop :=
  List.Pairwise (fun a b => a.userId ≠ b.userId ∨ a.date ≠ b.date) notes

theorem mem_updateFirst {p : Note → Bool} {g : Note → Note} {b : Note} :
    ∀ {l : List Note}, b ∈ updateFirst p g l → b ∈ l ∨ ∃ a, a ∈ l ∧ b = g a := by
  intro l
  induction l with
  | nil => intro h; simp [updateFirst] at h
  | cons n rest ih =>
      intro h
      by_cases hp : p n = true
      · simp only [updateFirst, if_pos hp] at h
        rcases List.mem_cons.mp h with h1 | h1
        · exact Or.inr ⟨n, List.mem_cons_self n rest, h1⟩
        · exact Or.inl (List.mem_cons_of_mem _ h1)
      · simp only [updateFirst, if_neg hp] at h
        rcases List.mem_cons.mp h with h1 | h1
        · exact Or.inl (h1 ▸ List.mem_cons_self n rest)
        · rcases ih h1 with h2 | ⟨a, ha, hb⟩
          · exact Or.inl (List.mem_cons_of_mem _ h2)
          · exact Or.inr ⟨a, List.mem_cons_of_mem _ ha, hb⟩

theorem pairwise_updateFirst (p : Note → Bool) (g : Note → Note)
    (hg : ∀ n, (g n).userId = n.userId ∧ (g n).date = n.date) :
    ∀ {l : List Note}, noDupUserDate l → noDupUserDate (updateFirst p g l) := by
  intro l
  induction l with
  | nil => intro h; exact h
  | cons n rest ih =>
      intro h
      rw [noDupUserDate, List.pairwise_cons] at h
      obtain ⟨hhead, htail⟩ := h
      by_cases hp : p n = true
      · simp only [updateFirst, if_pos hp, noDupUserDate, List.pairwise_cons]
        refine ⟨?_, htail⟩
        intro b hb
        rcases hhead b hb with h1 | h1
        · exact Or.inl (by rw [(hg n).1]; exact h1)
        · exact Or.inr (by rw [(hg n).2]; exact h1)
      · simp only [updateFirst, if_neg hp, noDupUserDate, List.pairwise_cons]
        refine ⟨?_, ih htail⟩
        intro b hb
        rcases mem_updateFirst hb with h1 | ⟨a, ha, rfl⟩
        · exact hhead b h1
        · rcases hhead a ha with h1 | h1
          · exact Or.inl (by rw [(hg a).1]; exact h1)
          · exact Or.inr (by rw [(hg a).2]; exact h1)

theorem updateFirst_append_notin (p : Note → Bool) (g : Note → Note)
    (l1 l2 : List Note) (h : ∀ x ∈ l1, p x = false) :
    updateFirst p g (l1 ++ l2) = l1 ++ updateFirst p g l2 := by
  induction l1 with
  | nil => rfl
  | cons n rest ih =>
      have hn : p n = false := h n (List.mem_cons_self n rest)
      simp only [List.cons_append, updateFirst, hn, Bool.false_eq_true, if_false]
      exact congrArg (fun t => n :: t)
        (ih (fun x hx => h x (List.mem_cons_of_mem _ hx)))

theorem updateFirst_idem (p : Note → Bool) (g : Note → Note)
    (hp : ∀ x, p x = true → p (g x) = true) (hg : ∀ x, g (g x) = g x) :
    ∀ l : List Note, updateFirst p g (updateFirst p g l) = updateFirst p g l := by
  intro l
  induction l with
  | nil => rfl
  | cons n rest ih =>
      by_cases hpn : p n = true
      · simp only [updateFirst, if_pos hpn, if_pos (hp n hpn), hg]
      · simp only [updateFirst, if_neg hpn, ih]

theorem find?_updateFirst_isSome (p : Note → Bool) (g : Note → Note)
    (hp : ∀ x, p x = true → p (g x) = true) :
    ∀ l : List Note,
    ((updateFirst p g l).find? p).isSome = (l.find? p).isSome := by
  intro l
  induction l with
  | nil => rfl
  | cons n rest ih =>
      by_cases hpn : p n = true
      · simp only [updateFirst, if_pos hpn,
          List.find?_cons_of_pos _ (hp n hpn), List.find?_cons_of_pos _ hpn,
          Option.isSome_some]
      · simp only [updateFirst, if_neg hpn,
          List.find?_cons_of_neg _ hpn, ih]

theorem find?_append_of_none {α : Type} (p : α → Bool) (l1 l2 : List α)
    (h : l1.find? p = none) : (l1 ++ l2).find? p = l2.find? p := by
  induction l1 with
  | nil => rfl
  | cons n rest ih =>
      have hnot : ¬ p n = true := by
        by_cases hpn : p n = true
        · rw [List.find?_cons_of_pos _ hpn] at h; cases h
        · exact hpn
      rw [List.find?_cons_of_neg _ hnot] at h
      calc (n :: rest ++ l2).find? p = (rest ++ l2).find? p :=
            List.find?_cons_of_neg _ hnot
        _ = l2.find? p := ih h

/-- Claim C5: the server-side note store invariant — at most one note per
(userId, date) pair — is preserved by `POST /api/notes` (upsert),
`PUT /api/notes/:id`, and `DELETE /api/notes/:id`. -/
theorem c5_unique_note_per_user_date
    (u d c newId now u2 id2 c2 now2 u3 id3 : String) (notes : List Note)
    (h : noDupUserDate notes) :
    noDupUserDate (postNote u d c newId now notes).2 ∧
    noDupUserDate (putNote u2 id2 c2 now2 notes).2 ∧
    noDupUserDate (deleteNote u3 id3 notes).2 := by
  refine ⟨?_, ?_, ?_⟩
  · rw [postNote]
    by_cases hv : d = "" ∨ c = "" ∨ c.trim = ""
    · rw [if_pos hv]; exact h
    · rw [if_neg hv]
      by_cases hfind :
          (notes.find? (fun n => n.userId == u && n.date == d)).isSome = true
      · rw [if_pos hfind]
        apply pairwise_updateFirst _ _ _ h
        intro n
        exact ⟨rfl, rfl⟩
      · rw [if_neg hfind]
        have hnone : notes.find? (fun n => n.userId == u && n.date == d) = none :=
          Option.not_isSome_iff_eq_none.mp hfind
        show noDupUserDate (notes ++ [⟨newId, u, d, c.trim, now, now⟩])
        rw [noDupUserDate, List.pairwise_append]
        refine ⟨h, List.pairwise_singleton _ _, ?_⟩
        intro a ha b hb
        rw [List.mem_singleton] at hb
        subst hb
        have hnp := List.find?_eq_none.mp hnone a ha
        simp only [Bool.and_eq_true, beq_iff_eq] at hnp
        rcases not_and_or.mp hnp with h1 | h1
        · exact Or.inl h1
        · exact Or.inr h1
  · rw [putNote]
    by_cases hv : c2 = "" ∨ c2.trim = ""
    · rw [if_pos hv]; exact h
    · rw [if_neg hv]
      by_cases hfind :
          (notes.find? (fun n => n.id == id2 && n.userId == u2)).isSome = true
      · rw [if_pos hfind]
        apply pairwise_updateFirst _ _ _ h
        intro n
        exact ⟨rfl, rfl⟩
      · rw [if_neg hfind]; exact h
  · rw [deleteNote]
    by_cases hlen : notes.length
        = (notes.filter (fun n => !(n.id == id3 && n.userId == u3))).length
    · rw [if_pos hlen]; exact h
    · rw [if_neg hlen]
      exact List.Pairwise.sublist (List.filter_sublist notes) h

theorem c5_unique_note_per_user_date_witness :
    noDupUserDate ([] : List Note) ∧
    (noDupUserDate (postNote "u1" "2024-06-01" "buy milk" "id1" "t" []).2 ∧
     noDupUserDate (putNote "u1" "id1" "x" "t" []).2 ∧
     noDupUserDate (deleteNote "u1" "id1" []).2) :=
  ⟨List.Pairwise.nil,
   c5_unique_note_per_user_date "u1" "2024-06-01" "buy milk" "id1" "t"
     "u1" "id1" "x" "t" "u1" "id1" [] List.Pairwise.nil⟩

/-- Claim C6: replaying the same CREATE/UPDATE operation (`POST /api/notes`
with a fixed date and content for a fixed user) twice yields the same stored
note state as replaying it once — the upsert is idempotent.  The model clock
and the freshly generated ids are explicit; the second replay finds the
existing (userId, date) note and rewrites the same content and timestamp, so
the id generated for the second replay is never used. -/
theorem c6_upsert_idempotent (u d c id1 id2 now : String) (notes : List Note) :
    (postNote u d c id2 now (postNote u d c id1 now notes).2).2
      = (postNote u d c id1 now notes).2 := by
  by_cases hv : d = "" ∨ c = "" ∨ c.trim = ""
  · simp [postNote, hv]
  · have hpres : ∀ x : Note, (fun n : Note => n.userId == u && n.date == d) x = true →
        (fun n : Note => n.userId == u && n.date == d)
          ((fun n : Note => { n with content := c.trim, updatedAt := now }) x) = true := by
      intro x hx
      simpa using hx
    have hidem : ∀ x : Note,
        (fun n : Note => { n with content := c.trim, updatedAt := now })
          ((fun n : Note => { n with content := c.trim, updatedAt := now }) x)
          = (fun n : Note => { n with content := c.trim, updatedAt := now }) x := by
      intro x
      rfl
    by_cases hfind :
        (notes.find? (fun n => n.userId == u && n.date == d)).isSome = true
    · have hs1 : (postNote u d c id1 now notes).2
          = updateFirst (fun n => n.userId == u && n.date == d)
              (fun n => { n with content := c.trim, updatedAt := now }) notes := by
        rw [postNote, if_neg hv, if_pos hfind]
      rw [hs1]
      have hf2 : (((updateFirst (fun n => n.userId == u && n.date == d)
          (fun n => { n with content := c.trim, updatedAt := now }) notes)).find?
            (fun n => n.userId == u && n.date == d)).isSome = true := by
        rw [find?_updateFirst_isSome _ _ hpres]
        exact hfind
      rw [postNote, if_neg hv, if_pos hf2]
      exact updateFirst_idem _ _ hpres hidem notes
    · have hs1 : (postNote u d c id1 now notes).2
          = notes ++ [(⟨id1, u, d, c.trim, now, now⟩ : Note)] := by
        rw [postNote, if_neg hv, if_neg hfind]
      rw [hs1]
      have hnone : notes.find? (fun n => n.userId == u && n.date == d) = none :=
        Option.not_isSome_iff_eq_none.mp hfind
      have hpnew : (fun n : Note => n.userId == u && n.date == d)
          (⟨id1, u, d, c.trim, now, now⟩ : Note) = true := by simp
      have hfind2 : (((notes ++ [(⟨id1, u, d, c.trim, now, now⟩ : Note)])).find?
          (fun n => n.userId == u && n.date == d)).isSome = true := by
        rw [find?_append_of_none _ _ _ hnone]
        simp [List.find?]
      rw [postNote, if_neg hv, if_pos hfind2]
      have hall : ∀ x ∈ notes,
          (fun n : Note => n.userId == u && n.date == d) x = false := by
        intro x hx
        have := List.find?_eq_none.mp hnone x hx
        exact Bool.eq_false_iff.mpr this
      show updateFirst _ _ (notes ++ [(⟨id1, u, d, c.trim, now, now⟩ : Note)])
          = notes ++ [(⟨id1, u, d, c.trim, now, now⟩ : Note)]
      rw [updateFirst_append_notin _ _ _ _ hall]
      simp only [updateFirst, hpnew, if_true]
